import Mathlib

/-!
Verification of the b-bot resilient batch submission pipeline.

Each section shallowly embeds one component of the JavaScript source and
proves the specification properties stated about it:

* `ProgressState` / `ProgressState.update`
  — src/presentation/progress/ProgressTracker.js
* `Cmd.executeCommandWithRetry`, `processSequentially`
  — src/infrastructure/commands/index.js
* `DeduplicationService` (checkDuplicate / processBatch / reset)
  — src/domain/services/ValidationService.js (DeduplicationService part)
* `AppError` classification — src/infrastructure/repositories/LayloApiRepository.js
  (custom error classes) together with HttpClient.isRetryableError
* `RateLimiter` — the HTTP client's token bucket
* `ProgressCheckpoint.isValid` / `findResumableSessions`
  — src/presentation/progress/ProgressPersistence.js

Wall-clock derived data (ISO timestamps stored inside result objects,
records-per-second metrics, memory usage) is not modelled: no claim below
depends on it, and it is pure observability metadata.
-/

namespace BBot

/-! ### Progress tracker (src/presentation/progress/ProgressTracker.js)

`ProgressEventType` mirrors the event tags dispatched by
`ProgressState.update`.  Event payloads carry exactly the fields the
`update` switch reads. -/

inductive ProgressEventType where
  | phaseChange (phase : String)
  | batchStart (batchNumber batchSize : Nat)
  | batchProgress (processed : Nat)
  | batchComplete (duration : Nat)
  | recordProcessed (success : Bool)
  | errorOccurred (error : String)
  | warningOccurred (warning : String)
  | milestoneReached (milestone : String)
  | sessionComplete (success : Bool)
  | statisticsUpdate
deriving DecidableEq

/-- The mutable aggregate of `ProgressTracker.js` (class `ProgressState`),
restricted to the fields its `update` method mutates.  The time-derived
metrics (`recordsPerSecond`, `estimatedTimeRemaining`, `averageBatchTime`,
`statistics`) are functions of the wall clock and are not modelled; the
`update` switch never reads them back into the counters. -/
structure ProgressState where
  currentPhase : String := "initialization"
  status : String := "idle"
  totalRecords : Nat := 0
  processedRecords : Nat := 0
  successfulRecords : Nat := 0
  failedRecords : Nat := 0
  totalBatches : Nat := 0
  currentBatch : Nat := 0
  currentBatchSize : Nat := 0
  currentBatchProcessed : Nat := 0
  errors : List String := []
  warnings : List String := []
  milestones : List String := []
deriving DecidableEq

/-- A freshly constructed `ProgressState` (the JS constructor defaults). -/
def ProgressState.init : ProgressState := {}

/-- Embeds `ProgressState.update(event)` — the switch on `event.type`
(ProgressTracker.js lines 75–151). -/
def ProgressState.update (st : ProgressState) (e : ProgressEventType) : ProgressState :=
  match e with
  | .phaseChange p => { st with currentPhase := p }
  | .batchStart n s =>
      { st with currentBatch := n, currentBatchSize := s, currentBatchProcessed := 0 }
  | .batchProgress p => { st with currentBatchProcessed := p }
  | .batchComplete _ => { st with currentBatchProcessed := st.currentBatchSize }
  | .recordProcessed ok =>
      let st := { st with processedRecords := st.processedRecords + 1 }
      if ok then { st with successfulRecords := st.successfulRecords + 1 }
      else { st with failedRecords := st.failedRecords + 1 }
  | .errorOccurred err => { st with errors := st.errors ++ [err] }
  | .warningOccurred w => { st with warnings := st.warnings ++ [w] }
  | .milestoneReached m => { st with milestones := st.milestones ++ [m] }
  | .sessionComplete ok => { st with status := if ok then "completed" else "failed" }
  | .statisticsUpdate => st

/-- Replaying a sequence of tracker events against a state, as
`ProgressTracker.updateProgress` does (state updates are never throttled). -/
def ProgressState.applyEvents (st : ProgressState) (es : List ProgressEventType) :
    ProgressState :=
  es.foldl ProgressState.update st

/-! ### Command retry and batch execution (src/infrastructure/commands/index.js)

A command's behaviour is abstracted as the outcome of each call of its
`execute` method.  `SubscribeUserCommand.execute` increments `this.attempts`
and catches every error, returning a `CommandResult` whose `success` flag is
false on failure and recording the error in `this.lastError`; so one try is
fully described by whether it succeeds and, on failure, whether the recorded
error classifies as retryable (`Command.isRetryable`, which returns false
when the error exposes no `isRetryable` method). -/

inductive CmdOutcome where
  | success
  | failure (retryable : Bool)
deriving DecidableEq

/-- One command: its configured `maxRetries` and, for each value of the
`attempts` counter (1-based: `outcome n` is the result of the n-th call of
`execute`), the outcome of that try. -/
structure Cmd where
  maxRetries : Nat
  outcome : Nat → CmdOutcome

/-- Embeds `Command.canRetry` (index.js lines 56–58):
`this.attempts < this.maxRetries && this.isRetryable()`, evaluated after a
failed try left `attempts` at the given value and `lastError` with the given
retryability. -/
def Cmd.canRetry (c : Cmd) (attempts : Nat) (retryable : Bool) : Bool :=
  decide (attempts < c.maxRetries) && retryable

/-- The do/while loop of `BatchProcessCommand.executeCommandWithRetry`
(index.js lines 375–398), written with an explicit fuel so the recursion is
structural.  `attempts` is the command's counter before the next `execute`
call.  The loop body always performs one try; it repeats exactly when the try
failed, `command.canRetry()` holds and `options.retryFailedCommands` is set.
Returns the final value of the attempts counter (= total number of tries)
and the final result's success flag. -/
def executeCommandWithRetryAux (c : Cmd) (retryFailedCommands : Bool) :
    Nat → Nat → Nat × Bool
  | 0, attempts =>
    match c.outcome (attempts + 1) with
    | .success => (attempts + 1, true)
    | .failure _ => (attempts + 1, false)
  | fuel' + 1, attempts =>
    match c.outcome (attempts + 1) with
    | .success => (attempts + 1, true)
    | .failure r =>
      if c.canRetry (attempts + 1) r && retryFailedCommands then
        executeCommandWithRetryAux c retryFailedCommands fuel' (attempts + 1)
      else (attempts + 1, false)

/-- Entry point of the retry loop: a fresh command starts at `attempts = 0`.
The fuel `maxRetries + 1` is never exhausted (see
`executeCommandWithRetryAux_fuel_irrelevant`): every continuing iteration
requires `attempts < maxRetries` and each try increments `attempts`. -/
def Cmd.executeCommandWithRetry (c : Cmd) (retryFailedCommands : Bool) : Nat × Bool :=
  executeCommandWithRetryAux c retryFailedCommands (c.maxRetries + 1) 0

/-- The `CommandResult` data relevant to the executor claims: the per-command
attempt count aggregated into the result metadata, and the success flag. -/
structure CommandResult where
  attempts : Nat
  success : Bool
deriving DecidableEq

/-- The finalized result of running one command through
`executeCommandWithRetry` (with `retryFailedCommands` at its default
`true`). -/
def Cmd.run (c : Cmd) : CommandResult :=
  ⟨(c.executeCommandWithRetry true).1, (c.executeCommandWithRetry true).2⟩

/-- Embeds `BatchProcessCommand.processSequentially` (index.js lines 324–348):
execute each command in input order through the retry loop, pushing each
result; when `failFast` is set and the result just pushed is a failure, stop
— later commands are never executed and contribute no output slot. -/
def processSequentially (failFast : Bool) : List Cmd → List CommandResult
  | [] => []
  | c :: rest =>
      let r := c.run
      if failFast && !r.success then [r]
      else r :: processSequentially failFast rest

/-! ### Deduplication engine
(src/domain/services/ValidationService.js, `DeduplicationService` part)

The JS `String.prototype.toLowerCase` / `trim` pair is embedded as
character-list operations so that concrete keys evaluate in the kernel. -/

/-- Embeds `s.toLowerCase()` — lower-case every character. -/
def lowerString (s : String) : String := ⟨s.data.map Char.toLower⟩

/-- Embeds `s.trim()` — strip leading and trailing whitespace. -/
def trimString (s : String) : String :=
  ⟨((s.data.dropWhile Char.isWhitespace).reverse.dropWhile Char.isWhitespace).reverse⟩

/-- The `Subscriber` entity fields read by the deduplication key strategies.
`none` models a missing (`undefined`/`null`) field; the JS truthiness test
`subscriber.email ? … : ''` also maps the empty string to `''`, which
coincides with `trimString (lowerString "") = ""`. -/
structure Subscriber where
  email : Option String := none
  phoneNumber : Option String := none
  firstName : Option String := none
  lastName : Option String := none
deriving DecidableEq

/-- Embeds `EmailDeduplicationStrategy.generateKey`:
`subscriber.email ? subscriber.email.toLowerCase().trim() : ''`. -/
def emailDeduplicationKey (s : Subscriber) : String :=
  match s.email with
  | some e => trimString (lowerString e)
  | none => ""

/-- Embeds `DuplicateResult` (ValidationService.js lines 441–461), without the
wall-clock `timestamp` field. -/
structure DuplicateResult where
  isDuplicate : Bool
  originalRecord : Option Subscriber
  duplicateCount : Nat
deriving DecidableEq

/-- One value of the `seenRecords` map: `{subscriber, count}` (the
`firstSeen` wall-clock timestamp and the redundant `key` copy are not
modelled). -/
structure SeenRecord where
  subscriber : Subscriber
  count : Nat
deriving DecidableEq

structure DedupStatistics where
  totalRecords : Nat
  uniqueRecords : Nat
  duplicateRecords : Nat
  duplicateGroups : Nat
deriving DecidableEq

/-- The `DeduplicationService` state: `seenRecords` and `duplicateGroups`
are JS `Map`s in insertion order, embedded as association lists (keys are
unique by construction since `set` is only called for absent keys).  The
pluggable key strategy is passed to each operation as `keyOf`. -/
structure DeduplicationService where
  seenRecords : List (String × SeenRecord)
  duplicateGroups : List (String × List Subscriber)
  statistics : DedupStatistics
deriving DecidableEq

/-- A freshly constructed service. -/
def DeduplicationService.init : DeduplicationService := ⟨[], [], ⟨0, 0, 0, 0⟩⟩

/-- Embeds `Map.get` on the association list. -/
def lookupKey : List (String × SeenRecord) → String → Option SeenRecord
  | [], _ => none
  | (k, e) :: rest, key => if k = key then some e else lookupKey rest key

/-- Embeds `existingRecord.count++` — the stored entry is mutated in place. -/
def bumpCount : List (String × SeenRecord) → String → List (String × SeenRecord)
  | [], _ => []
  | (k, e) :: rest, key =>
      if k = key then (k, { e with count := e.count + 1 }) :: rest
      else (k, e) :: bumpCount rest key

/-- Embeds `if (!duplicateGroups.has(key)) set(key, []); get(key).push(subscriber)`
(group members keep only the subscriber; the per-member timestamp and
running number are display metadata). -/
def pushToGroup : List (String × List Subscriber) → String → Subscriber →
    List (String × List Subscriber)
  | [], key, s => [(key, [s])]
  | (k, g) :: rest, key, s =>
      if k = key then (k, g ++ [s]) :: rest
      else (k, g) :: pushToGroup rest key s

/-- The blank-key test of `checkDuplicate`: `!key || key.trim() === ''`
(`!key` on a string is true exactly for the empty string). -/
def isBlankKey (k : String) : Bool := k == "" || trimString k == ""

/-- The `checkDuplicate` body after the `instanceof` guard
(ValidationService.js lines 582–621): bump `totalRecords`, derive the key,
classify blank keys as unique without touching the maps, otherwise look the
key up and either record a duplicate (bumping the stored count and the
duplicate group) or store the first occurrence. -/
def DeduplicationService.checkDuplicateOnSubscriber (svc : DeduplicationService)
    (keyOf : Subscriber → String) (s : Subscriber) :
    DuplicateResult × DeduplicationService :=
  let stats1 := { svc.statistics with totalRecords := svc.statistics.totalRecords + 1 }
  let key := keyOf s
  if isBlankKey key then
    (⟨false, none, 0⟩,
     { svc with statistics := { stats1 with uniqueRecords := stats1.uniqueRecords + 1 } })
  else
    match lookupKey svc.seenRecords key with
    | some existing =>
        (⟨true, some existing.subscriber, existing.count + 1⟩,
         { svc with
            seenRecords := bumpCount svc.seenRecords key,
            duplicateGroups := pushToGroup svc.duplicateGroups key s,
            statistics := { stats1 with duplicateRecords := stats1.duplicateRecords + 1 } })
    | none =>
        (⟨false, none, 0⟩,
         { svc with
            seenRecords := svc.seenRecords ++ [(key, ⟨s, 1⟩)],
            statistics := { stats1 with uniqueRecords := stats1.uniqueRecords + 1 } })

/-- An input value handed to the engine: either a `Subscriber` instance or
any other value (which fails the `instanceof Subscriber` guard). -/
inductive DedupInput where
  | subscriber (s : Subscriber)
  | notASubscriber
deriving DecidableEq

def DedupInput.isMalformed : DedupInput → Bool
  | .subscriber _ => false
  | .notASubscriber => true

/-- Embeds `DeduplicationService.checkDuplicate` (lines 577–622): the
`instanceof Subscriber` guard throws on any other value; otherwise the
body above runs. -/
def DeduplicationService.checkDuplicate (svc : DeduplicationService)
    (keyOf : Subscriber → String) :
    DedupInput → Except String (DuplicateResult × DeduplicationService)
  | .notASubscriber => .error "Data must be a Subscriber instance"
  | .subscriber s => .ok (svc.checkDuplicateOnSubscriber keyOf s)

/-- The `{unique, duplicates, errors}` accumulator of `processBatch`.
Entries hold the raw loop value, as the JS code pushes the loop variable. -/
structure BatchResult where
  unique : List DedupInput
  duplicates : List (DedupInput × DuplicateResult)
  errors : List (DedupInput × String)
deriving DecidableEq

/-- The `for … of` loop of `processBatch` (lines 636–654): each value goes
through `checkDuplicate`; a thrown error is caught and recorded in
`errors`, otherwise the value lands in `duplicates` or `unique`. -/
def processBatchLoop (keyOf : Subscriber → String) (svc : DeduplicationService) :
    List DedupInput → DeduplicationService × BatchResult
  | [] => (svc, ⟨[], [], []⟩)
  | v :: rest =>
      match svc.checkDuplicate keyOf v with
      | .error msg =>
          let (svc', r) := processBatchLoop keyOf svc rest
          (svc', { r with errors := (v, msg) :: r.errors })
      | .ok (dres, svc1) =>
          let (svc', r) := processBatchLoop keyOf svc1 rest
          if dres.isDuplicate then (svc', { r with duplicates := (v, dres) :: r.duplicates })
          else (svc', { r with unique := v :: r.unique })

/-- Embeds `DeduplicationService.processBatch` (lines 629–660): run the loop, then
refresh `statistics.duplicateGroups` from the group map size. -/
def DeduplicationService.processBatch (svc : DeduplicationService)
    (keyOf : Subscriber → String) (vs : List DedupInput) :
    DeduplicationService × BatchResult :=
  let (svc', r) := processBatchLoop keyOf svc vs
  ({ svc' with
      statistics := { svc'.statistics with duplicateGroups := svc'.duplicateGroups.length } },
   r)

/-- Embeds `DeduplicationService.reset` (lines 739–748): clear both maps and zero
the statistics. -/
def DeduplicationService.reset (_svc : DeduplicationService) : DeduplicationService :=
  ⟨[], [], ⟨0, 0, 0, 0⟩⟩

/-- The `seenRecords` entries created by a run of fresh (previously unseen,
pairwise distinct, non-blank) keys: each key maps to its record with
count 1. -/
def seenEntriesOf (keyOf : Subscriber → String) (seg : List Subscriber) :
    List (String × SeenRecord) :=
  seg.map (fun s => (keyOf s, ⟨s, 1⟩))

/-- A subscriber record carrying only an email, for concrete scenarios. -/
def emailOnly (e : String) : Subscriber := { email := some e }

def c4A : List Subscriber := [emailOnly "u1@x.com"]

def c4X : Subscriber := emailOnly "Dup@X.com"

def c4B : List Subscriber :=
  [emailOnly "u2@x.com", emailOnly "u3@x.com", emailOnly "u4@x.com"]

def c4Y : Subscriber := emailOnly "dup@x.COM"

def c4C : List Subscriber :=
  [emailOnly "u5@x.com", emailOnly "u6@x.com", emailOnly "u7@x.com", emailOnly "u8@x.com"]

/-! ### Error classification
(custom error classes of src/infrastructure/repositories/LayloApiRepository.js
together with the dispatch in `Command.isRetryable` / `Command.getRetryDelay`
and `HttpClient.isRetryableError` / `HttpClient.getRetryDelay`)

Each constructor stands for one error class; classes without an
`isRetryable`/`getRetryDelay` method (ValidationError, AuthenticationError's
delay, unclassified errors) are handled by the callers' fallback: no method
means not retryable, and no method means no class-supplied delay. -/

inductive AppError where
  | validation
  | authentication
  | rateLimit (retryAfter : Option Nat)
  | network
  | timeout
  | api (status : Nat)
  | unknown
deriving DecidableEq

/-- The retryability classification: `AuthenticationError.isRetryable` is
`false`; `RateLimitError`, `NetworkError`, `TimeoutError` return `true`;
`ApiError.isRetryable` is `[429, 500, 502, 503, 504].includes(status)`;
`ValidationError` and unclassified errors expose no `isRetryable` method, so
the callers classify them as not retryable. -/
def AppError.isRetryable : AppError → Bool
  | .validation => false
  | .authentication => false
  | .rateLimit _ => true
  | .network => true
  | .timeout => true
  | .api s => s == 429 || s == 500 || s == 502 || s == 503 || s == 504
  | .unknown => false

/-- The class-supplied retry delay (milliseconds): `RateLimitError` returns
`retryAfter * 1000` when the server hint is present, else 5000;
`NetworkError` 2000; `TimeoutError` 3000; `ApiError` 5000 for 429, 2000 for
500/502/503/504, 1000 otherwise.  `none` when the class defines no
`getRetryDelay` (the caller then falls back to exponential backoff). -/
def AppError.getRetryDelay : AppError → Option Nat
  | .rateLimit (some ra) => some (ra * 1000)
  | .rateLimit none => some 5000
  | .network => some 2000
  | .timeout => some 3000
  | .api 429 => some 5000
  | .api 500 => some 2000
  | .api 502 => some 2000
  | .api 503 => some 2000
  | .api 504 => some 2000
  | .api _ => some 1000
  | .validation => none
  | .authentication => none
  | .unknown => none

/-- An HTTP 5xx server-error status. -/
def is5xxStatus (s : Nat) : Bool := decide (500 ≤ s) && decide (s ≤ 599)

/-! ### Rate limiter (token bucket of the HTTP client)

Token counts are JS numbers manipulated only through `+`, `*`, `-`, `min`,
`floor` and comparisons; they are embedded as rationals.  Wall-clock time
enters only through the non-negative elapsed seconds
`(now - lastRefill) / 1000` of each `refillTokens` call, passed here as the
explicit `dt` of each operation. -/

structure RateLimiter where
  tokens : ℚ
  maxTokens : ℚ
  refillRate : ℚ
deriving DecidableEq

/-- Embeds `new RateLimiter(requestsPerSecond, burstSize)`. -/
def RateLimiter.create (requestsPerSecond burstSize : ℚ) : RateLimiter :=
  ⟨burstSize, burstSize, requestsPerSecond⟩

/-- Embeds `refillTokens()`:
`tokens = Math.min(maxTokens, tokens + timePassed * refillRate)`. -/
def RateLimiter.refillTokens (rl : RateLimiter) (dt : ℚ) : RateLimiter :=
  { rl with tokens := min rl.maxTokens (rl.tokens + dt * rl.refillRate) }

/-- One pass of `acquire()`: refill, then consume a token when at least one
is available; otherwise the caller sleeps and calls `acquire()` again, which
is a further `acquireAttempt` in the operation sequence. -/
def RateLimiter.acquireAttempt (rl : RateLimiter) (dt : ℚ) : RateLimiter :=
  let rl' := rl.refillTokens dt
  if 1 ≤ rl'.tokens then { rl' with tokens := rl'.tokens - 1 } else rl'

/-- Embeds `getAvailableTokens()`: lazily refill, then report
`Math.floor(tokens)`. -/
def RateLimiter.getAvailableTokens (rl : RateLimiter) (dt : ℚ) : ℤ × RateLimiter :=
  let rl' := rl.refillTokens dt
  (⌊rl'.tokens⌋, rl')

/-- One observable operation on the shared bucket, tagged with the elapsed
time its internal `refillTokens` sees. -/
inductive RateLimiterOp where
  | acquireAttempt (dt : ℚ)
  | readTokens (dt : ℚ)
deriving DecidableEq

def RateLimiterOp.dt : RateLimiterOp → ℚ
  | .acquireAttempt d => d
  | .readTokens d => d

def RateLimiter.step (rl : RateLimiter) : RateLimiterOp → RateLimiter
  | .acquireAttempt d => rl.acquireAttempt d
  | .readTokens d => (rl.getAvailableTokens d).2

/-- Replaying a sequence of bucket operations. -/
def RateLimiter.run (rl : RateLimiter) (ops : List RateLimiterOp) : RateLimiter :=
  ops.foldl RateLimiter.step rl

/-- The token-bucket safety invariant. -/
def RateLimiter.Good (rl : RateLimiter) : Prop :=
  0 ≤ rl.tokens ∧ rl.tokens ≤ rl.maxTokens

/-! ### Checkpoint store (src/presentation/progress/ProgressPersistence.js)

A checkpoint is embedded with the fields `isValid()` and the session scans
read: the session id (`""` standing for a falsy id), the snapshot's status
and record counters, and the timestamp (as a numeric instant; the JS code
compares `new Date(timestamp)` values).  The `state` sub-object always
exists for a constructed checkpoint, so it is inlined. -/

structure ProgressCheckpoint where
  sessionId : String
  status : String
  totalRecords : Nat
  processedRecords : Nat
  timestamp : Nat
deriving DecidableEq

/-- Embeds `ProgressCheckpoint.isValid()` (ProgressPersistence.js lines 74–82). -/
def ProgressCheckpoint.isValid (c : ProgressCheckpoint) : Bool :=
  !(c.sessionId == "") && !(c.status == "completed") && !(c.status == "failed") &&
    decide (c.processedRecords < c.totalRecords)

/-- The Checkpoint resumability invariant as the spec states it (§3):
`processedRecords < totalRecords` and status neither `completed` nor
`failed`.  Kept separate from `isValid` so the two can be compared. -/
def resumableInvariant (c : ProgressCheckpoint) : Prop :=
  c.processedRecords < c.totalRecords ∧ c.status ≠ "completed" ∧ c.status ≠ "failed"

/-- Insertion step of the newest-first sort
(`sort((a, b) => new Date(b.timestamp) - new Date(a.timestamp))`). -/
def insertNewestFirst (c : ProgressCheckpoint) :
    List ProgressCheckpoint → List ProgressCheckpoint
  | [] => [c]
  | d :: rest =>
      if d.timestamp ≤ c.timestamp then c :: d :: rest
      else d :: insertNewestFirst c rest

/-- Sorting a checkpoint list newest-first by timestamp. -/
def sortNewestFirst (l : List ProgressCheckpoint) : List ProgressCheckpoint :=
  l.foldr insertNewestFirst []

/-- Embeds `loadLatestCheckpoint` (lines 189–208): sort the session's checkpoints
newest-first and take the first (`null` when the session has none). -/
def loadLatestCheckpoint (cps : List ProgressCheckpoint) : Option ProgressCheckpoint :=
  (sortNewestFirst cps).head?

/-- Embeds `findResumableSessions` (lines 272–313): load every session's latest
checkpoint, keep those with `isValid()`, and sort the result newest-first
by timestamp.  A session is its list of stored checkpoints. -/
def findResumableSessions (sessions : List (List ProgressCheckpoint)) :
    List ProgressCheckpoint :=
  sortNewestFirst ((sessions.filterMap loadLatestCheckpoint).filter ProgressCheckpoint.isValid)

def c8good : ProgressCheckpoint :=
  ⟨"session_a", "active", 100, 40, 5⟩

def c8stale : ProgressCheckpoint :=
  ⟨"session_a", "active", 100, 10, 3⟩

def c8done : ProgressCheckpoint :=
  ⟨"session_b", "completed", 50, 50, 7⟩

/-! ## Properties

Lemmas and the claim theorems, in claim order per component. -/

/-- The counter invariant, as one step preservation. -/
theorem ProgressState.update_counter_eq (st : ProgressState) (e : ProgressEventType)
    (h : st.processedRecords = st.successfulRecords + st.failedRecords) :
    (st.update e).processedRecords =
      (st.update e).successfulRecords + (st.update e).failedRecords := by
  cases e <;> simp [ProgressState.update, h]
  case recordProcessed ok => cases ok <;> simp [h] <;> omega

theorem ProgressState.applyEvents_counter_eq (st : ProgressState)
    (es : List ProgressEventType)
    (h : st.processedRecords = st.successfulRecords + st.failedRecords) :
    (st.applyEvents es).processedRecords =
      (st.applyEvents es).successfulRecords + (st.applyEvents es).failedRecords := by
  induction es generalizing st with
  | nil => exact h
  | cons e es ih =>
      exact ih (st.update e) (ProgressState.update_counter_eq st e h)

/-- C1: for every sequence of tracker events applied to a freshly created
`ProgressState`, `processedRecords = successfulRecords + failedRecords`
holds after the sequence — and hence after every event and at session end,
since the event sequence is arbitrary (every prefix is itself a sequence). -/
theorem C1_processed_eq_successful_add_failed (es : List ProgressEventType) :
    (ProgressState.init.applyEvents es).processedRecords =
      (ProgressState.init.applyEvents es).successfulRecords +
        (ProgressState.init.applyEvents es).failedRecords :=
  ProgressState.applyEvents_counter_eq ProgressState.init es rfl

/-- The fuel does not affect the result as long as it dominates the remaining
attempt budget — so the fuel-based embedding computes exactly the JS loop. -/
theorem executeCommandWithRetryAux_fuel_irrelevant (c : Cmd) (ro : Bool) :
    ∀ f₁ f₂ a, c.maxRetries ≤ f₁ + a → c.maxRetries ≤ f₂ + a →
      executeCommandWithRetryAux c ro f₁ a = executeCommandWithRetryAux c ro f₂ a := by
  intro f₁
  induction f₁ with
  | zero =>
      intro f₂ a h₁ h₂
      cases f₂ with
      | zero => rfl
      | succ f₂' =>
          simp only [executeCommandWithRetryAux]
          cases h : c.outcome (a + 1) with
          | success => rfl
          | failure r =>
              have : ¬ a + 1 < c.maxRetries := by omega
              simp [Cmd.canRetry, this]
  | succ f₁' ih =>
      intro f₂ a h₁ h₂
      cases f₂ with
      | zero =>
          simp only [executeCommandWithRetryAux]
          cases h : c.outcome (a + 1) with
          | success => rfl
          | failure r =>
              have : ¬ a + 1 < c.maxRetries := by omega
              simp [Cmd.canRetry, this]
      | succ f₂' =>
          simp only [executeCommandWithRetryAux]
          cases h : c.outcome (a + 1) with
          | success => rfl
          | failure r =>
              by_cases hc : (c.canRetry (a + 1) r && ro) = true
              · have hlt : a + 1 < c.maxRetries := by
                  simp [Cmd.canRetry] at hc; omega
                simp only [hc, if_true]
                exact ih f₂' (a + 1) (by omega) (by omega)
              · simp [hc]

/-- Bound on the final attempts counter: from counter value `a`, the loop
performs at least one and at most `max (a + 1) maxRetries - a` tries. -/
theorem executeCommandWithRetryAux_attempts_le (c : Cmd) (ro : Bool) :
    ∀ fuel a, (executeCommandWithRetryAux c ro fuel a).1 ≤ max (a + 1) c.maxRetries := by
  intro fuel
  induction fuel with
  | zero =>
      intro a
      simp only [executeCommandWithRetryAux]
      cases c.outcome (a + 1) <;> simp
  | succ fuel' ih =>
      intro a
      simp only [executeCommandWithRetryAux]
      cases c.outcome (a + 1) with
      | success => simp
      | failure r =>
          by_cases hc : (c.canRetry (a + 1) r && ro) = true
          · have hlt : a + 1 < c.maxRetries := by
              simp [Cmd.canRetry] at hc; omega
            simp only [hc, if_true]
            have := ih (a + 1)
            omega
          · simp [hc]

/-- C2: the retry executor calls a command's `execute` at most
`maxRetries + 1` times in total; and from any reachable loop state, a try
whose error classifies as fatal (not retryable) is the last one — the loop
finalizes immediately with exactly that one further try, regardless of the
remaining attempt budget. -/
theorem C2_retry_bound_and_fatal_stop (c : Cmd) (ro : Bool) :
    (c.executeCommandWithRetry ro).1 ≤ c.maxRetries + 1 ∧
    (∀ fuel a, c.outcome (a + 1) = .failure false →
      executeCommandWithRetryAux c ro fuel a = (a + 1, false)) := by
  constructor
  · have := executeCommandWithRetryAux_attempts_le c ro (c.maxRetries + 1) 0
    simp only [Cmd.executeCommandWithRetry]
    omega
  · intro fuel a h
    cases fuel with
    | zero => simp [executeCommandWithRetryAux, h]
    | succ fuel' => simp [executeCommandWithRetryAux, h, Cmd.canRetry]

/-- Witness for C2: a command whose first try fails fatally is tried exactly
once even with a large remaining budget. -/
theorem C2_retry_bound_and_fatal_stop_witness :
    (Cmd.executeCommandWithRetry ⟨10, fun _ => .failure false⟩ true).1 ≤ 11 ∧
    executeCommandWithRetryAux ⟨10, fun _ => .failure false⟩ true 10 0 = (1, false) :=
  ⟨(C2_retry_bound_and_fatal_stop ⟨10, fun _ => .failure false⟩ true).1,
   (C2_retry_bound_and_fatal_stop ⟨10, fun _ => .failure false⟩ true).2 10 0 rfl⟩

/-- C3: in sequential fail-fast mode, if the commands split as
`l₁ ++ c :: l₂` where every command of `l₁` finalizes successfully and `c`
finalizes as failed (the first failure), the output is exactly the results
of `l₁` followed by `c`'s failed result: `l₁.length + 1` entries, and the
commands of `l₂` are never executed — the output does not depend on `l₂`. -/
theorem C3_failfast_stops_at_first_failure (l₁ l₂ : List Cmd) (c : Cmd)
    (h₁ : ∀ c' ∈ l₁, c'.run.success = true) (h₂ : c.run.success = false) :
    processSequentially true (l₁ ++ c :: l₂) = l₁.map Cmd.run ++ [c.run] ∧
    (processSequentially true (l₁ ++ c :: l₂)).length = l₁.length + 1 := by
  have key : processSequentially true (l₁ ++ c :: l₂) = l₁.map Cmd.run ++ [c.run] := by
    induction l₁ with
    | nil => simp [processSequentially, h₂]
    | cons c' l₁' ih =>
        have hc' : c'.run.success = true := h₁ c' (List.mem_cons_self c' l₁')
        have ih' := ih (fun d hd => h₁ d (List.mem_cons_of_mem c' hd))
        simp [processSequentially, hc', ih']
  exact ⟨key, by simp [key]⟩

/-- Witness for C3: five commands, the third failing fatally, yield exactly
three result entries; the fourth and fifth commands never run. -/
theorem C3_failfast_stops_at_first_failure_witness :
    processSequentially true
        [⟨3, fun _ => .success⟩, ⟨3, fun _ => .success⟩,
         ⟨3, fun _ => .failure false⟩, ⟨3, fun _ => .success⟩,
         ⟨3, fun _ => .success⟩] =
      [⟨1, true⟩, ⟨1, true⟩, ⟨1, false⟩] := by
  have h := C3_failfast_stops_at_first_failure
    [⟨3, fun _ => .success⟩, ⟨3, fun _ => .success⟩]
    [⟨3, fun _ => .success⟩, ⟨3, fun _ => .success⟩]
    ⟨3, fun _ => .failure false⟩
    (by
      intro c' hc'
      simp only [List.mem_cons, List.not_mem_nil, or_false] at hc'
      rcases hc' with rfl | rfl <;> rfl)
    rfl
  simpa using h.1

/-- C5: a record whose derived key is blank is classified unique and leaves
both the `seenRecords` map and the duplicate groups untouched — no matter
what the service has already accumulated (in particular however many prior
records shared that blank key). -/
theorem C5_blank_key_always_unique (keyOf : Subscriber → String)
    (svc : DeduplicationService) (s : Subscriber)
    (h : isBlankKey (keyOf s) = true) :
    (svc.checkDuplicateOnSubscriber keyOf s).1.isDuplicate = false ∧
    (svc.checkDuplicateOnSubscriber keyOf s).1.originalRecord = none ∧
    (svc.checkDuplicateOnSubscriber keyOf s).2.seenRecords = svc.seenRecords ∧
    (svc.checkDuplicateOnSubscriber keyOf s).2.duplicateGroups = svc.duplicateGroups := by
  simp [DeduplicationService.checkDuplicateOnSubscriber, h]

/-- Witness for C5: a subscriber without an email (blank derived key)
checked against a service that already saw two blank-keyed records. -/
theorem C5_blank_key_always_unique_witness :
    (DeduplicationService.checkDuplicateOnSubscriber
        ⟨[], [], ⟨2, 2, 0, 0⟩⟩ emailDeduplicationKey {}).1.isDuplicate = false ∧
    (DeduplicationService.checkDuplicateOnSubscriber
        ⟨[], [], ⟨2, 2, 0, 0⟩⟩ emailDeduplicationKey {}).1.originalRecord = none ∧
    (DeduplicationService.checkDuplicateOnSubscriber
        ⟨[], [], ⟨2, 2, 0, 0⟩⟩ emailDeduplicationKey {}).2.seenRecords = [] ∧
    (DeduplicationService.checkDuplicateOnSubscriber
        ⟨[], [], ⟨2, 2, 0, 0⟩⟩ emailDeduplicationKey {}).2.duplicateGroups = [] :=
  C5_blank_key_always_unique emailDeduplicationKey ⟨[], [], ⟨2, 2, 0, 0⟩⟩ {} (by decide)

/-- C9 counterexample: `checkDuplicate` itself does raise on a value that is
not a `Subscriber` instance — the `instanceof` guard throws. -/
theorem C9_checkDuplicate_throws_on_malformed :
    DeduplicationService.init.checkDuplicate emailDeduplicationKey .notASubscriber =
      .error "Data must be a Subscriber instance" := rfl

/-- C9 (amended): `processBatch` never raises — malformed values are caught
per record and recorded in `errors`, every input lands in exactly one of the
three output buckets — and `checkDuplicate` returns normally on every
`Subscriber` instance (blank keys included); only non-`Subscriber` values
make `checkDuplicate` itself throw. -/
theorem C9_processBatch_never_throws (keyOf : Subscriber → String)
    (svc : DeduplicationService) (vs : List DedupInput) :
    (∀ s : Subscriber, ∃ r,
      svc.checkDuplicate keyOf (.subscriber s) = .ok r) ∧
    (svc.processBatch keyOf vs).2.errors =
      (vs.filter DedupInput.isMalformed).map
        (fun v => (v, "Data must be a Subscriber instance")) ∧
    (svc.processBatch keyOf vs).2.unique.length +
      (svc.processBatch keyOf vs).2.duplicates.length +
      (svc.processBatch keyOf vs).2.errors.length = vs.length := by
  have loopErr : ∀ (vs : List DedupInput) (svc : DeduplicationService),
      (processBatchLoop keyOf svc vs).2.errors =
        (vs.filter DedupInput.isMalformed).map
          (fun v => (v, "Data must be a Subscriber instance")) := by
    intro vs
    induction vs with
    | nil => intro svc; simp [processBatchLoop]
    | cons v rest ih =>
        intro svc
        cases v with
        | notASubscriber =>
            simp [processBatchLoop, DeduplicationService.checkDuplicate,
              DedupInput.isMalformed, ih svc]
        | subscriber s =>
            by_cases hd : (svc.checkDuplicateOnSubscriber keyOf s).1.isDuplicate = true
            · simp [processBatchLoop, DeduplicationService.checkDuplicate,
                DedupInput.isMalformed, hd, ih]
            · simp only [Bool.not_eq_true] at hd
              simp [processBatchLoop, DeduplicationService.checkDuplicate,
                DedupInput.isMalformed, hd, ih]
  have loopLen : ∀ (vs : List DedupInput) (svc : DeduplicationService),
      (processBatchLoop keyOf svc vs).2.unique.length +
        (processBatchLoop keyOf svc vs).2.duplicates.length +
        (processBatchLoop keyOf svc vs).2.errors.length = vs.length := by
    intro vs
    induction vs with
    | nil => intro svc; simp [processBatchLoop]
    | cons v rest ih =>
        intro svc
        cases v with
        | notASubscriber =>
            have h := ih svc
            simp [processBatchLoop, DeduplicationService.checkDuplicate]
            omega
        | subscriber s =>
            have h := ih (svc.checkDuplicateOnSubscriber keyOf s).2
            by_cases hd : (svc.checkDuplicateOnSubscriber keyOf s).1.isDuplicate = true
            · simp only [processBatchLoop, DeduplicationService.checkDuplicate, hd,
                if_true, List.length_cons]
              omega
            · simp only [Bool.not_eq_true] at hd
              simp only [processBatchLoop, DeduplicationService.checkDuplicate, hd,
                Bool.false_eq_true, if_false, List.length_cons]
              omega
  refine ⟨fun s => ⟨svc.checkDuplicateOnSubscriber keyOf s, rfl⟩, ?_, ?_⟩
  · simpa [DeduplicationService.processBatch] using loopErr vs svc
  · simpa [DeduplicationService.processBatch] using loopLen vs svc

/-- C10: deduplication is idempotent across runs — two engines, each freshly
`reset()`, given the same input in the same order produce identical
unique/duplicate partitions (the model elides only the wall-clock
timestamp metadata inside the result objects). -/
theorem C10_dedup_idempotent (keyOf : Subscriber → String)
    (svc₁ svc₂ : DeduplicationService) (vs : List DedupInput) :
    (svc₁.reset).processBatch keyOf vs = (svc₂.reset).processBatch keyOf vs := rfl

theorem lookupKey_eq_none_iff (l : List (String × SeenRecord)) (k : String) :
    lookupKey l k = none ↔ k ∉ l.map Prod.fst := by
  induction l with
  | nil => simp [lookupKey]
  | cons p rest ih =>
      obtain ⟨k', e⟩ := p
      by_cases h : k' = k
      · subst h; simp [lookupKey]
      · simp only [lookupKey, h, if_false, List.map_cons, List.mem_cons, not_or, ih]
        constructor
        · intro hk; exact ⟨fun heq => h heq.symm, hk⟩
        · intro hk; exact hk.2

theorem lookupKey_append_of_none (l₁ l₂ : List (String × SeenRecord)) (k : String)
    (h : lookupKey l₁ k = none) :
    lookupKey (l₁ ++ l₂) k = lookupKey l₂ k := by
  induction l₁ with
  | nil => rfl
  | cons p rest ih =>
      obtain ⟨k', e⟩ := p
      by_cases hk : k' = k
      · subst hk; simp [lookupKey] at h
      · simp only [lookupKey, hk, if_false, List.cons_append] at h ⊢
        exact ih h

theorem bumpCount_keys (l : List (String × SeenRecord)) (k : String) :
    (bumpCount l k).map Prod.fst = l.map Prod.fst := by
  induction l with
  | nil => rfl
  | cons p rest ih =>
      obtain ⟨k', e⟩ := p
      by_cases h : k' = k <;> simp [bumpCount, h, ih]

theorem seenEntriesOf_keys (keyOf : Subscriber → String) (seg : List Subscriber) :
    (seenEntriesOf keyOf seg).map Prod.fst = seg.map keyOf := by
  induction seg with
  | nil => rfl
  | cons s rest ih => simp [seenEntriesOf, ih]

/-- Splitting a `processBatch` loop run over concatenated input: the state
threads through, and each of the three result buckets concatenates. -/
theorem processBatchLoop_append (keyOf : Subscriber → String) :
    ∀ (vs₁ vs₂ : List DedupInput) (svc : DeduplicationService),
      processBatchLoop keyOf svc (vs₁ ++ vs₂) =
        ((processBatchLoop keyOf (processBatchLoop keyOf svc vs₁).1 vs₂).1,
         ⟨(processBatchLoop keyOf svc vs₁).2.unique ++
            (processBatchLoop keyOf (processBatchLoop keyOf svc vs₁).1 vs₂).2.unique,
          (processBatchLoop keyOf svc vs₁).2.duplicates ++
            (processBatchLoop keyOf (processBatchLoop keyOf svc vs₁).1 vs₂).2.duplicates,
          (processBatchLoop keyOf svc vs₁).2.errors ++
            (processBatchLoop keyOf (processBatchLoop keyOf svc vs₁).1 vs₂).2.errors⟩) := by
  intro vs₁
  induction vs₁ with
  | nil => intro vs₂ svc; simp [processBatchLoop]
  | cons v rest ih =>
      intro vs₂ svc
      cases v with
      | notASubscriber =>
          simp [processBatchLoop, DeduplicationService.checkDuplicate, ih]
      | subscriber s =>
          by_cases hd : ((svc.checkDuplicateOnSubscriber keyOf s).1).isDuplicate = true
          · simp [processBatchLoop, DeduplicationService.checkDuplicate, hd, ih]
          · simp only [Bool.not_eq_true] at hd
            simp [processBatchLoop, DeduplicationService.checkDuplicate, hd, ih]

/-- Running the loop over subscribers whose keys are non-blank, pairwise
distinct and absent from the current `seenRecords`: all are classified
unique, the duplicate groups are untouched, and `seenRecords` grows by one
count-1 entry per record, in input order. -/
theorem processBatchLoop_fresh (keyOf : Subscriber → String) :
    ∀ (seg : List Subscriber) (svc : DeduplicationService),
      (∀ s ∈ seg, isBlankKey (keyOf s) = false) →
      (seg.map keyOf).Nodup →
      (∀ s ∈ seg, keyOf s ∉ svc.seenRecords.map Prod.fst) →
      (processBatchLoop keyOf svc (seg.map .subscriber)).2 =
          { unique := seg.map DedupInput.subscriber, duplicates := [], errors := [] } ∧
      (processBatchLoop keyOf svc (seg.map .subscriber)).1.seenRecords =
        svc.seenRecords ++ seenEntriesOf keyOf seg ∧
      (processBatchLoop keyOf svc (seg.map .subscriber)).1.duplicateGroups =
        svc.duplicateGroups := by
  intro seg
  induction seg with
  | nil => intro svc _ _ _; simp [processBatchLoop, seenEntriesOf]
  | cons s rest ih =>
      intro svc hblank hnodup hfresh
      have hkb : isBlankKey (keyOf s) = false := hblank s (List.mem_cons_self s rest)
      have hlk : lookupKey svc.seenRecords (keyOf s) = none :=
        (lookupKey_eq_none_iff _ _).mpr (hfresh s (List.mem_cons_self s rest))
      have hstep : svc.checkDuplicateOnSubscriber keyOf s =
          (⟨false, none, 0⟩,
           { svc with
              seenRecords := svc.seenRecords ++ [(keyOf s, ⟨s, 1⟩)],
              statistics :=
                { svc.statistics with
                    totalRecords := svc.statistics.totalRecords + 1,
                    uniqueRecords := svc.statistics.uniqueRecords + 1 } }) := by
        simp [DeduplicationService.checkDuplicateOnSubscriber, hkb, hlk]
      have hnodup' : (rest.map keyOf).Nodup := (List.nodup_cons.mp hnodup).2
      have hout : keyOf s ∉ rest.map keyOf := (List.nodup_cons.mp hnodup).1
      have hfresh' : ∀ t ∈ rest,
          keyOf t ∉ ((svc.seenRecords ++ [(keyOf s, (⟨s, 1⟩ : SeenRecord))]).map Prod.fst) := by
        intro t ht
        simp only [List.map_append, List.map_cons, List.map_nil, List.mem_append,
          List.mem_singleton, List.mem_cons, not_or]
        exact ⟨hfresh t (List.mem_cons_of_mem s ht),
               fun heq => hout (heq ▸ List.mem_map_of_mem keyOf ht), by simp⟩
      have := ih ({ svc with
          seenRecords := svc.seenRecords ++ [(keyOf s, ⟨s, 1⟩)],
          statistics :=
            { svc.statistics with
                totalRecords := svc.statistics.totalRecords + 1,
                uniqueRecords := svc.statistics.uniqueRecords + 1 } })
        (fun t ht => hblank t (List.mem_cons_of_mem s ht)) hnodup' hfresh'
      refine ⟨?_, ?_, ?_⟩
      · simp [processBatchLoop, DeduplicationService.checkDuplicate, hstep, this.1]
      · simp [processBatchLoop, DeduplicationService.checkDuplicate, hstep, this.2.1,
          seenEntriesOf, List.append_assoc]
      · simp [processBatchLoop, DeduplicationService.checkDuplicate, hstep, this.2.2]

/-- C4: with the email key strategy, an input in which exactly one pair of
records (`x` first, later `y`) shares a normalized email and every other
derived key is distinct and non-blank partitions into `n - 1` unique records
and one duplicate, whose `originalRecord` is the first-seen record `x` of
the pair (and whose running count is 2);  the unique list keeps input
order. -/
theorem C4_single_shared_email_pair (A B C : List Subscriber) (x y : Subscriber)
    (hkey : emailDeduplicationKey y = emailDeduplicationKey x)
    (hblankAll : ∀ s ∈ A ++ x :: (B ++ C), isBlankKey (emailDeduplicationKey s) = false)
    (hdist : ((A ++ x :: (B ++ C)).map emailDeduplicationKey).Nodup) :
    (DeduplicationService.init.processBatch emailDeduplicationKey
        ((A ++ x :: B).map DedupInput.subscriber ++
          DedupInput.subscriber y :: C.map DedupInput.subscriber)).2.unique =
      (A ++ x :: (B ++ C)).map DedupInput.subscriber ∧
    (DeduplicationService.init.processBatch emailDeduplicationKey
        ((A ++ x :: B).map DedupInput.subscriber ++
          DedupInput.subscriber y :: C.map DedupInput.subscriber)).2.duplicates =
      [(DedupInput.subscriber y, ⟨true, some x, 2⟩)] ∧
    (DeduplicationService.init.processBatch emailDeduplicationKey
        ((A ++ x :: B).map DedupInput.subscriber ++
          DedupInput.subscriber y :: C.map DedupInput.subscriber)).2.unique.length + 1 =
      ((A ++ x :: B).map DedupInput.subscriber ++
        DedupInput.subscriber y :: C.map DedupInput.subscriber).length := by
  set k := emailDeduplicationKey with hkdef
  have hwrap : ∀ (svc : DeduplicationService) (vs : List DedupInput),
      (svc.processBatch k vs).2 = (processBatchLoop k svc vs).2 := by
    intro svc vs; simp [DeduplicationService.processBatch]
  -- decompose the key-distinctness hypothesis
  simp only [List.map_append, List.map_cons] at hdist
  obtain ⟨hKA, hrest, hdisjA⟩ := List.nodup_append.mp hdist
  obtain ⟨hkxout, hBC⟩ := List.nodup_cons.mp hrest
  obtain ⟨hKB, hKC, hdisjBC⟩ := List.nodup_append.mp hBC
  have hxB : k x ∉ B.map k := fun h => hkxout (List.mem_append_left _ h)
  have hxA : k x ∉ A.map k := fun h => (hdisjA h) (List.mem_cons_self _ _)
  have hcNotA : ∀ c ∈ C, k c ∉ A.map k := fun c hc h =>
    (hdisjA h) (List.mem_cons_of_mem _ (List.mem_append_right _ (List.mem_map_of_mem k hc)))
  have hcNekx : ∀ c ∈ C, ¬ k c = k x := fun c hc h =>
    hkxout (h ▸ List.mem_append_right _ (List.mem_map_of_mem k hc))
  have hcNotB : ∀ c ∈ C, k c ∉ B.map k := fun c hc h =>
    (hdisjBC h) (List.mem_map_of_mem k hc)
  -- blank-freeness of the relevant keys
  have hbx : isBlankKey (k x) = false :=
    hblankAll x (by simp [List.mem_append, List.mem_cons])
  have hb₁ : ∀ s ∈ A ++ x :: B, isBlankKey (k s) = false := by
    intro s hs
    apply hblankAll
    simp only [List.mem_append, List.mem_cons] at hs ⊢
    tauto
  have hbC : ∀ s ∈ C, isBlankKey (k s) = false := fun s hs =>
    hblankAll s (by simp [List.mem_append, List.mem_cons, hs])
  -- the first segment A ++ x :: B is entirely fresh
  have hn₁ : ((A ++ x :: B).map k).Nodup := by
    simp only [List.map_append, List.map_cons]
    refine List.nodup_append.mpr ⟨hKA, List.nodup_cons.mpr ⟨hxB, hKB⟩, ?_⟩
    intro a ha hmem
    rcases List.mem_cons.mp hmem with rfl | hmem'
    · exact (hdisjA ha) (List.mem_cons_self _ _)
    · exact (hdisjA ha) (List.mem_cons_of_mem _ (List.mem_append_left _ hmem'))
  have fresh₁ := processBatchLoop_fresh k (A ++ x :: B) DeduplicationService.init hb₁ hn₁
    (by intro s hs; simp [DeduplicationService.init])
  set svc₁ := (processBatchLoop k DeduplicationService.init
      ((A ++ x :: B).map DedupInput.subscriber)).1 with hsvc₁
  have seen₁ : svc₁.seenRecords = seenEntriesOf k (A ++ x :: B) := by
    rw [fresh₁.2.1]; simp [DeduplicationService.init]
  have seen₁keys : svc₁.seenRecords.map Prod.fst = (A ++ x :: B).map k := by
    rw [seen₁, seenEntriesOf_keys]
  -- the duplicate step for y
  have hsplit : seenEntriesOf k (A ++ x :: B) =
      seenEntriesOf k A ++ (k x, (⟨x, 1⟩ : SeenRecord)) :: seenEntriesOf k B := by
    simp [seenEntriesOf]
  have hlookup : lookupKey svc₁.seenRecords (k x) = some ⟨x, 1⟩ := by
    rw [seen₁, hsplit,
      lookupKey_append_of_none _ _ _
        ((lookupKey_eq_none_iff _ _).mpr (by rw [seenEntriesOf_keys]; exact hxA))]
    simp [lookupKey]
  have hby : isBlankKey (k y) = false := by rw [hkey]; exact hbx
  have hYres : (svc₁.checkDuplicateOnSubscriber k y).1 =
      (⟨true, some x, 2⟩ : DuplicateResult) := by
    simp [DeduplicationService.checkDuplicateOnSubscriber, hkey, hbx, hlookup]
  have hYkeys : (svc₁.checkDuplicateOnSubscriber k y).2.seenRecords.map Prod.fst =
      svc₁.seenRecords.map Prod.fst := by
    simp [DeduplicationService.checkDuplicateOnSubscriber, hkey, hbx, hlookup, bumpCount_keys]
  -- the tail segment C is fresh again
  have hfC : ∀ c ∈ C,
      k c ∉ ((svc₁.checkDuplicateOnSubscriber k y).2.seenRecords.map Prod.fst) := by
    intro c hc
    rw [hYkeys, seen₁keys]
    simp only [List.map_append, List.map_cons, List.mem_append, List.mem_cons, not_or]
    exact ⟨hcNotA c hc, hcNekx c hc, hcNotB c hc⟩
  have fresh₂ := processBatchLoop_fresh k C ((svc₁.checkDuplicateOnSubscriber k y).2)
    hbC hKC hfC
  have hdup : (svc₁.checkDuplicateOnSubscriber k y).1.isDuplicate = true := by
    rw [hYres]
  have hmid : (processBatchLoop k svc₁
      (DedupInput.subscriber y :: C.map DedupInput.subscriber)).2 =
      { unique := C.map DedupInput.subscriber,
        duplicates := [(DedupInput.subscriber y, ⟨true, some x, 2⟩)],
        errors := [] } := by
    simp [processBatchLoop, DeduplicationService.checkDuplicate, hdup, fresh₂.1, hYres]
  have happ := processBatchLoop_append k ((A ++ x :: B).map DedupInput.subscriber)
    (DedupInput.subscriber y :: C.map DedupInput.subscriber) DeduplicationService.init
  have hfinal : (processBatchLoop k DeduplicationService.init
      ((A ++ x :: B).map DedupInput.subscriber ++
        DedupInput.subscriber y :: C.map DedupInput.subscriber)).2 =
      { unique := (A ++ x :: B).map DedupInput.subscriber ++ C.map DedupInput.subscriber,
        duplicates := [(DedupInput.subscriber y, ⟨true, some x, 2⟩)],
        errors := [] } := by
    rw [happ]
    simp only [← hsvc₁, fresh₁.1, hmid]
    simp
  refine ⟨?_, ?_, ?_⟩
  · rw [hwrap, hfinal]
    simp
  · rw [hwrap, hfinal]
  · rw [hwrap, hfinal]
    simp
    omega

/-- Witness for C4: ten records, two of which (positions 2 and 6) share the
normalized email `dup@x.com` in different letter cases: nine uniques, one
duplicate whose original is the earlier record. -/
theorem C4_single_shared_email_pair_witness :
    (DeduplicationService.init.processBatch emailDeduplicationKey
        ((c4A ++ c4X :: c4B).map DedupInput.subscriber ++
          DedupInput.subscriber c4Y :: c4C.map DedupInput.subscriber)).2.unique =
      (c4A ++ c4X :: (c4B ++ c4C)).map DedupInput.subscriber ∧
    (DeduplicationService.init.processBatch emailDeduplicationKey
        ((c4A ++ c4X :: c4B).map DedupInput.subscriber ++
          DedupInput.subscriber c4Y :: c4C.map DedupInput.subscriber)).2.duplicates =
      [(DedupInput.subscriber c4Y, ⟨true, some c4X, 2⟩)] ∧
    (DeduplicationService.init.processBatch emailDeduplicationKey
        ((c4A ++ c4X :: c4B).map DedupInput.subscriber ++
          DedupInput.subscriber c4Y :: c4C.map DedupInput.subscriber)).2.unique.length + 1 =
      ((c4A ++ c4X :: c4B).map DedupInput.subscriber ++
        DedupInput.subscriber c4Y :: c4C.map DedupInput.subscriber).length :=
  C4_single_shared_email_pair c4A c4B c4C c4X c4Y (by decide) (by decide) (by decide)

/-- C6 counterexample: status 501 is an HTTP 5xx server error, yet the
classification marks it not retryable — only 429/500/502/503/504 are in the
retryable status list, so the claim's "HTTP 5xx server errors are
retryable" fails at 501. -/
theorem C6_counterexample_501_is_fatal :
    is5xxStatus 501 = true ∧ (AppError.api 501).isRetryable = false := by decide

/-- C6 (amended): the classification table with the server-error row
restricted to the statuses the code actually retries — authentication
fatal; rate limit retryable with delay `retryAfter × 1000` when the server
hint is present, else 5000 ms; server statuses 500/502/503/504 retryable
with 2000 ms (and 429 with 5000 ms); any other 5xx status (e.g. 501, 505)
fatal; timeouts retryable with 3000 ms; other network connectivity errors
retryable with 2000 ms; validation and unclassified errors fatal. -/
theorem C6_classification_table :
    AppError.authentication.isRetryable = false ∧
    (∀ ra, (AppError.rateLimit ra).isRetryable = true) ∧
    (AppError.rateLimit none).getRetryDelay = some 5000 ∧
    (∀ v, (AppError.rateLimit (some v)).getRetryDelay = some (v * 1000)) ∧
    (∀ s, s ∈ [500, 502, 503, 504] →
      (AppError.api s).isRetryable = true ∧ (AppError.api s).getRetryDelay = some 2000) ∧
    (∀ s, is5xxStatus s = true → s ∉ [500, 502, 503, 504] →
      (AppError.api s).isRetryable = false) ∧
    (AppError.api 429).isRetryable = true ∧
    (AppError.api 429).getRetryDelay = some 5000 ∧
    AppError.timeout.isRetryable = true ∧
    AppError.timeout.getRetryDelay = some 3000 ∧
    AppError.network.isRetryable = true ∧
    AppError.network.getRetryDelay = some 2000 ∧
    AppError.validation.isRetryable = false ∧
    AppError.unknown.isRetryable = false := by
  refine ⟨rfl, fun ra => rfl, rfl, fun v => rfl, ?_, ?_,
    rfl, rfl, rfl, rfl, rfl, rfl, rfl, rfl⟩
  · intro s hs
    simp only [List.mem_cons, List.not_mem_nil, or_false] at hs
    rcases hs with rfl | rfl | rfl | rfl <;> exact ⟨rfl, rfl⟩
  · intro s h5 hnot
    simp only [is5xxStatus, Bool.and_eq_true, decide_eq_true_eq] at h5
    simp only [List.mem_cons, List.not_mem_nil, or_false, not_or] at hnot
    simp only [AppError.isRetryable, Bool.or_eq_false_iff, beq_eq_false_iff_ne, ne_eq]
    omega

/-- Witness for C6's amended table: 502 is retryable with a 2000 ms delay,
while 501 — though a 5xx — is fatal. -/
theorem C6_classification_table_witness :
    (AppError.api 502).isRetryable = true ∧
    (AppError.api 502).getRetryDelay = some 2000 ∧
    (AppError.api 501).isRetryable = false := by
  obtain ⟨-, -, -, -, h5xx, hother, -⟩ := C6_classification_table
  exact ⟨(h5xx 502 (by decide)).1, (h5xx 502 (by decide)).2,
    hother 501 (by decide) (by decide)⟩

theorem RateLimiter.refillTokens_good (rl : RateLimiter) (dt : ℚ)
    (hr : 0 ≤ rl.refillRate) (hd : 0 ≤ dt) (hM : 0 ≤ rl.maxTokens)
    (h : 0 ≤ rl.tokens) : (rl.refillTokens dt).Good := by
  constructor
  · exact le_min hM (by positivity)
  · exact min_le_left _ _

theorem RateLimiter.step_good (rl : RateLimiter) (op : RateLimiterOp)
    (hr : 0 ≤ rl.refillRate) (hd : 0 ≤ op.dt) (hM : 0 ≤ rl.maxTokens)
    (h : 0 ≤ rl.tokens) :
    (rl.step op).Good ∧ (rl.step op).maxTokens = rl.maxTokens ∧
      (rl.step op).refillRate = rl.refillRate := by
  cases op with
  | acquireAttempt d =>
      have hg := rl.refillTokens_good d hr hd hM h
      simp only [RateLimiter.step, RateLimiter.acquireAttempt]
      by_cases h1 : 1 ≤ (rl.refillTokens d).tokens
      · simp only [h1, if_true]
        refine ⟨⟨?_, ?_⟩, rfl, rfl⟩
        · show (0 : ℚ) ≤ (rl.refillTokens d).tokens - 1
          linarith
        · show (rl.refillTokens d).tokens - 1 ≤ (rl.refillTokens d).maxTokens
          have h2 := hg.2
          linarith
      · simp only [h1, if_false]
        exact ⟨hg, rfl, rfl⟩
  | readTokens d =>
      have hg := rl.refillTokens_good d hr hd hM h
      exact ⟨hg, rfl, rfl⟩

theorem RateLimiter.run_good :
    ∀ (ops : List RateLimiterOp) (rl : RateLimiter),
      0 ≤ rl.refillRate → 0 ≤ rl.maxTokens → 0 ≤ rl.tokens →
      rl.tokens ≤ rl.maxTokens →
      (∀ op ∈ ops, 0 ≤ op.dt) →
      (rl.run ops).Good ∧ (rl.run ops).maxTokens = rl.maxTokens ∧
        (rl.run ops).refillRate = rl.refillRate := by
  intro ops
  induction ops with
  | nil => intro rl hr hM h hle _; exact ⟨⟨h, hle⟩, rfl, rfl⟩
  | cons op rest ih =>
      intro rl hr hM h hle hops
      have hstep := rl.step_good op hr (hops op (List.mem_cons_self op rest)) hM h
      have := ih (rl.step op) (hstep.2.2 ▸ hr) (hstep.2.1 ▸ hM) hstep.1.1
        (hstep.2.1 ▸ hstep.1.2) (fun o ho => hops o (List.mem_cons_of_mem op ho))
      exact ⟨this.1, hstep.2.1 ▸ this.2.1, hstep.2.2 ▸ this.2.2⟩

/-- C7: for any burst capacity `c ≥ 0`, refill rate `≥ 0` and any sequence
of acquire attempts and token reads with non-negative elapsed times, the
internal token count stays within `[0, c]`, and `getAvailableTokens` never
reports more than `c` tokens.  (Every prefix of the sequence is itself a
sequence, so the bounds hold at every intermediate point.) -/
theorem C7_rate_limiter_bounds (requestsPerSecond burstSize : ℚ)
    (hr : 0 ≤ requestsPerSecond) (hc : 0 ≤ burstSize)
    (ops : List RateLimiterOp) (hops : ∀ op ∈ ops, 0 ≤ op.dt)
    (dt : ℚ) :
    0 ≤ ((RateLimiter.create requestsPerSecond burstSize).run ops).tokens ∧
    ((RateLimiter.create requestsPerSecond burstSize).run ops).tokens ≤ burstSize ∧
    ((((RateLimiter.create requestsPerSecond burstSize).run ops).getAvailableTokens
        dt).1 : ℚ) ≤ burstSize := by
  have hmain := RateLimiter.run_good ops (RateLimiter.create requestsPerSecond burstSize)
    hr hc hc le_rfl hops
  refine ⟨hmain.1.1, ?_, ?_⟩
  · have hle := hmain.1.2
    rw [hmain.2.1] at hle
    exact hle
  have hfloor : ((⌊(((RateLimiter.create requestsPerSecond burstSize).run ops).refillTokens
      dt).tokens⌋ : ℤ) : ℚ) ≤
      (((RateLimiter.create requestsPerSecond burstSize).run ops).refillTokens dt).tokens :=
    Int.floor_le _
  have hcap : (((RateLimiter.create requestsPerSecond burstSize).run ops).refillTokens
      dt).tokens ≤ burstSize := by
    simp only [RateLimiter.refillTokens]
    have := hmain.2.1
    calc min ((RateLimiter.create requestsPerSecond burstSize).run ops).maxTokens _ ≤
        ((RateLimiter.create requestsPerSecond burstSize).run ops).maxTokens :=
          min_le_left _ _
      _ = burstSize := this
  exact le_trans hfloor hcap

/-- Witness for C7: capacity 2, rate 1/s, three acquire attempts then a read
one second later. -/
theorem C7_rate_limiter_bounds_witness :
    0 ≤ ((RateLimiter.create 1 2).run
      [.acquireAttempt 0, .acquireAttempt 0, .acquireAttempt 0, .readTokens 1]).tokens ∧
    ((RateLimiter.create 1 2).run
      [.acquireAttempt 0, .acquireAttempt 0, .acquireAttempt 0, .readTokens 1]).tokens ≤ 2 ∧
    ((((RateLimiter.create 1 2).run
      [.acquireAttempt 0, .acquireAttempt 0, .acquireAttempt 0,
        .readTokens 1]).getAvailableTokens 0).1 : ℚ) ≤ 2 :=
  C7_rate_limiter_bounds 1 2 (by norm_num) (by norm_num)
    [.acquireAttempt 0, .acquireAttempt 0, .acquireAttempt 0, .readTokens 1]
    (by
      intro op hop
      simp only [List.mem_cons, List.not_mem_nil, or_false] at hop
      rcases hop with rfl | rfl | rfl | rfl <;> norm_num [RateLimiterOp.dt])
    0

theorem mem_insertNewestFirst (c a : ProgressCheckpoint) :
    ∀ l, a ∈ insertNewestFirst c l ↔ a = c ∨ a ∈ l := by
  intro l
  induction l with
  | nil => simp [insertNewestFirst]
  | cons d rest ih =>
      by_cases h : d.timestamp ≤ c.timestamp
      · simp [insertNewestFirst, h]
      · simp [insertNewestFirst, h, ih]
        tauto

theorem mem_sortNewestFirst (a : ProgressCheckpoint) :
    ∀ l, a ∈ sortNewestFirst l ↔ a ∈ l := by
  intro l
  induction l with
  | nil => simp [sortNewestFirst]
  | cons d rest ih =>
      simp only [sortNewestFirst, List.foldr_cons] at ih ⊢
      rw [mem_insertNewestFirst, ih]
      simp [eq_comm]

theorem pairwise_insertNewestFirst (c : ProgressCheckpoint) :
    ∀ l, l.Pairwise (fun a b => b.timestamp ≤ a.timestamp) →
      (insertNewestFirst c l).Pairwise (fun a b => b.timestamp ≤ a.timestamp) := by
  intro l
  induction l with
  | nil => intro _; simp [insertNewestFirst]
  | cons d rest ih =>
      intro h
      obtain ⟨hd, hrest⟩ := List.pairwise_cons.mp h
      by_cases hc : d.timestamp ≤ c.timestamp
      · simp only [insertNewestFirst, hc, if_true]
        refine List.pairwise_cons.mpr ⟨?_, h⟩
        intro e he
        rcases List.mem_cons.mp he with rfl | he'
        · exact hc
        · exact le_trans (hd e he') hc
      · simp only [insertNewestFirst, hc, if_false]
        refine List.pairwise_cons.mpr ⟨?_, ih hrest⟩
        intro e he
        rcases (mem_insertNewestFirst c e rest).mp he with rfl | he'
        · omega
        · exact hd e he'

theorem pairwise_sortNewestFirst :
    ∀ l, (sortNewestFirst l).Pairwise (fun a b => b.timestamp ≤ a.timestamp) := by
  intro l
  induction l with
  | nil => simp [sortNewestFirst]
  | cons d rest ih =>
      simp only [sortNewestFirst, List.foldr_cons]
      exact pairwise_insertNewestFirst d _ ih

theorem head?_mem {α : Type _} (l : List α) (a : α) (h : l.head? = some a) : a ∈ l := by
  cases l with
  | nil => simp at h
  | cons b rest =>
      simp only [List.head?_cons, Option.some.injEq] at h
      exact h ▸ List.mem_cons_self _ _

theorem isValid_iff (c : ProgressCheckpoint) :
    c.isValid = true ↔ (c.sessionId ≠ "" ∧ resumableInvariant c) := by
  simp only [ProgressCheckpoint.isValid, resumableInvariant, Bool.and_eq_true,
    Bool.not_eq_true', beq_eq_false_iff_ne, ne_eq, decide_eq_true_eq]
  tauto

/-- C8: every checkpoint returned by `findResumableSessions` satisfies the
resumability invariant (one that violates it is never returned,
unconditionally); conversely — provided stored checkpoints carry a
session id, as every checkpoint saved from a tracker does — every latest
checkpoint satisfying the invariant is returned; and the returned list is
sorted newest-first by checkpoint timestamp. -/
theorem C8_findResumableSessions_exact (sessions : List (List ProgressCheckpoint))
    (h : ∀ cps ∈ sessions, ∀ c ∈ cps, c.sessionId ≠ "") :
    (∀ c ∈ findResumableSessions sessions, resumableInvariant c) ∧
    (∀ c ∈ sessions.filterMap loadLatestCheckpoint,
      resumableInvariant c → c ∈ findResumableSessions sessions) ∧
    (∀ c ∈ findResumableSessions sessions,
      c ∈ sessions.filterMap loadLatestCheckpoint) ∧
    (findResumableSessions sessions).Pairwise
      (fun a b => b.timestamp ≤ a.timestamp) := by
  refine ⟨?_, ?_, ?_, pairwise_sortNewestFirst _⟩
  · intro c hc
    rw [findResumableSessions, mem_sortNewestFirst] at hc
    exact ((isValid_iff c).mp (List.mem_filter.mp hc).2).2
  · intro c hc hres
    have hid : c.sessionId ≠ "" := by
      obtain ⟨cps, hcps, hload⟩ := List.mem_filterMap.mp hc
      have : c ∈ cps := by
        have := head?_mem _ _ hload
        rwa [mem_sortNewestFirst] at this
      exact h cps hcps c this
    rw [findResumableSessions, mem_sortNewestFirst]
    exact List.mem_filter.mpr ⟨hc, (isValid_iff c).mpr ⟨hid, hres⟩⟩
  · intro c hc
    rw [findResumableSessions, mem_sortNewestFirst] at hc
    exact (List.mem_filter.mp hc).1

/-- Witness for C8: of two stored sessions, only the one whose latest
checkpoint (40 of 100 processed, status active) is resumable is returned;
the completed session's checkpoint is excluded, and the result is sorted. -/
theorem C8_findResumableSessions_exact_witness :
    c8good ∈ findResumableSessions [[c8stale, c8good], [c8done]] ∧
    (findResumableSessions [[c8stale, c8good], [c8done]]).Pairwise
      (fun a b => b.timestamp ≤ a.timestamp) :=
  ⟨(C8_findResumableSessions_exact [[c8stale, c8good], [c8done]] (by decide)).2.1
      c8good (by decide) ⟨by decide, by decide, by decide⟩,
   (C8_findResumableSessions_exact [[c8stale, c8good], [c8done]] (by decide)).2.2.2⟩

end BBot
